import Mathlib

/-!
Verification development for the SSS (Shamir secret sharing) command executor
of `src/libindy/src/commands/sss.rs`.

The file shallowly embeds the four command handlers
(`shard_msg_secret_and_store_shards`, `get_shards_of_verkey`,
`get_shard_of_verkey`, `recover_secret_from_shards`) and the helper
`update_msg_with_secret_key` / `_verkey_to_wallet_key`, together with models
of the external collaborators the spec declares out of scope (serde_json,
base58, the indy-crypto split/combine primitives, the key service and the
wallet store), and proves the spec's claims about them.
-/

namespace Indy

/-- Model of `serde_json::Value`: JSON values, with numbers restricted to the
integral fragment (no float appears anywhere in the SSS code paths). Objects
are association lists in insertion order, modelling `serde_json::Map`. -/
inductive Json where
  | null : Json
  | bool (b : Bool) : Json
  | num (n : Int) : Json
  | str (s : String) : Json
  | arr (elems : List Json) : Json
  | obj (fields : List (String × Json)) : Json

/-- Association-list JSON object, the model of `serde_json::Map<String, Value>`. -/
abbrev JMap := List (String × Json)

/-- Model of `Map::insert`: replace the value at an existing key, otherwise
append the new binding. -/
def JMap.insert (m : JMap) (k : String) (v : Json) : JMap :=
  match m with
  | [] => [(k, v)]
  | (k', v') :: rest => if k' == k then (k, v) :: rest else (k', v') :: JMap.insert rest k v

/-- Model of `Map::get`: value stored at a key, if any. -/
def JMap.lookup (m : JMap) (k : String) : Option Json :=
  match m with
  | [] => none
  | (k', v) :: rest => if k' == k then some v else JMap.lookup rest k

mutual

/-- Model of `serde_json::to_string` on a `Value` (compact rendering). Only its
existence as a function matters for the claims; no property of the concrete
text is used beyond equality with itself. -/
def Json.render : Json → String
  | Json.null => "null"
  | Json.bool true => "true"
  | Json.bool false => "false"
  | Json.num n => toString n
  | Json.str s => "\"" ++ s ++ "\""
  | Json.arr elems => "[" ++ Json.renderList elems ++ "]"
  | Json.obj fields => "\x7b" ++ Json.renderFields fields ++ "\x7d"

/-- Comma-separated rendering of array elements. -/
def Json.renderList : List Json → String
  | [] => ""
  | [j] => Json.render j
  | j :: rest => Json.render j ++ "," ++ Json.renderList rest

/-- Comma-separated rendering of object fields. -/
def Json.renderFields : List (String × Json) → String
  | [] => ""
  | [(k, v)] => "\"" ++ k ++ "\":" ++ Json.render v
  | (k, v) :: rest => "\"" ++ k ++ "\":" ++ Json.render v ++ "," ++ Json.renderFields rest

end

/-! ### Decimal digit codec

Executable building blocks for the shard wire codec: a natural number is
written as its little-endian digit string terminated by a comma. The spec
treats the exact shard wire format as an external-library contract
("treat as opaque but index-addressable"), so only invertibility matters. -/

/-- Little-endian decimal digits, fuel-indexed so that the definition is
structurally recursive (fuel at least the value always suffices). -/
def digitsLEAux : Nat → Nat → List Nat
  | 0, _ => []
  | fuel + 1, n => if n = 0 then [] else (n % 10) :: digitsLEAux fuel (n / 10)

/-- Little-endian decimal digits of a natural number (empty for 0). -/
def digitsLE (n : Nat) : List Nat :=
  digitsLEAux n n

/-- Value of a little-endian digit list. -/
def fromDigitsLE : List Nat → Nat
  | [] => 0
  | d :: ds => d + 10 * fromDigitsLE ds

/-- The digit character for a single decimal digit. -/
def digitChar (d : Nat) : Char :=
  Char.ofNat (48 + d)

/-- Digit value of a decimal digit character, if it is one. -/
def charToDigit? (c : Char) : Option Nat :=
  if 48 ≤ c.toNat ∧ c.toNat ≤ 57 then some (c.toNat - 48) else none

/-- Read a maximal run of decimal digit characters. -/
def readDigits : List Char → (List Nat × List Char)
  | [] => ([], [])
  | c :: cs =>
    match charToDigit? c with
    | some d => let p := readDigits cs; (d :: p.1, p.2)
    | none => ([], c :: cs)

/-- Parse one comma-terminated little-endian number. -/
def parseNatLE : List Char → Option (Nat × List Char) :=
  fun cs =>
    let p := readDigits cs
    match p.2 with
    | ',' :: rest => some (fromDigitsLE p.1, rest)
    | _ => none

/-- Encode one natural number as comma-terminated little-endian digits. -/
def encNatLE (n : Nat) : List Char :=
  (digitsLE n).map digitChar ++ [',']

theorem digitsLEAux_lt_ten : ∀ fuel n, ∀ d ∈ digitsLEAux fuel n, d < 10 := by
  intro fuel
  induction fuel with
  | zero => intro n d hd; simp [digitsLEAux] at hd
  | succ f ih =>
    intro n d hd
    rw [digitsLEAux] at hd
    by_cases h : n = 0
    · simp [h] at hd
    · simp [h] at hd
      rcases hd with h1 | h2
      · omega
      · exact ih (n / 10) d h2

theorem digitsLE_lt_ten : ∀ n, ∀ d ∈ digitsLE n, d < 10 :=
  fun n => digitsLEAux_lt_ten n n

theorem fromDigitsLE_digitsLEAux : ∀ fuel n, n ≤ fuel →
    fromDigitsLE (digitsLEAux fuel n) = n := by
  intro fuel
  induction fuel with
  | zero => intro n hn; interval_cases n; rfl
  | succ f ih =>
    intro n hn
    rw [digitsLEAux]
    by_cases h : n = 0
    · simp [h, fromDigitsLE]
    · simp only [h, if_false, fromDigitsLE]
      rw [ih (n / 10) (by omega)]
      omega

theorem fromDigitsLE_digitsLE : ∀ n, fromDigitsLE (digitsLE n) = n :=
  fun n => fromDigitsLE_digitsLEAux n n (Nat.le_refl n)

theorem charToDigit?_digitChar {d : Nat} (h : d < 10) :
    charToDigit? (digitChar d) = some d := by
  interval_cases d <;> rfl

theorem readDigits_append (ds : List Nat) (hds : ∀ d ∈ ds, d < 10) (rest : List Char) :
    readDigits (ds.map digitChar ++ ',' :: rest) = (ds, ',' :: rest) := by
  induction ds with
  | nil => rfl
  | cons d ds ih =>
    have hd : d < 10 := hds d (by simp)
    simp only [List.map_cons, List.cons_append, readDigits,
      charToDigit?_digitChar hd, List.append_eq]
    rw [ih (fun x hx => hds x (by simp [hx]))]

theorem parseNatLE_encNatLE (n : Nat) (rest : List Char) :
    parseNatLE (encNatLE n ++ rest) = some (n, rest) := by
  unfold parseNatLE encNatLE
  rw [List.append_assoc, List.singleton_append,
    readDigits_append (digitsLE n) (digitsLE_lt_ten n) rest]
  simp [fromDigitsLE_digitsLE]

/-! ### Shards and their wire codec

Modelled from the spec: `indy_crypto::sss::Share` and its serde codec. The
spec fixes only the interface: "each shard serializes its 1-based index and
opaque payload bytes (exact field names are an external-library contract, not
specified here — treat as opaque but index-addressable)", and the combine
primitive must be able to reject "fewer than `m` distinct shards", so a share
also records the threshold chosen at split time. -/

/-- Modelled from the spec: a shard ("share") produced by the external split
primitive. It carries its 1-based index, the split-time threshold, and the
payload bytes. -/
structure Share where
  no : Nat
  threshold : Nat
  data : List Nat
  deriving DecidableEq

/-- Parse a fixed count of comma-terminated numbers. -/
def parseNats : Nat → List Char → Option (List Nat × List Char)
  | 0, cs => some ([], cs)
  | k + 1, cs =>
    match parseNatLE cs with
    | some (n, cs') =>
      match parseNats k cs' with
      | some (ns, cs'') => some (n :: ns, cs'')
      | none => none
    | none => none

/-- Wire form of one share: index, threshold, payload length, payload bytes. -/
def encShare (s : Share) : List Char :=
  encNatLE s.no ++ encNatLE s.threshold ++ encNatLE s.data.length ++
    (s.data.map encNatLE).flatten

/-- Parse one share from the wire. -/
def parseShare (cs : List Char) : Option (Share × List Char) :=
  match parseNatLE cs with
  | some (no, cs1) =>
    match parseNatLE cs1 with
    | some (t, cs2) =>
      match parseNatLE cs2 with
      | some (len, cs3) =>
        match parseNats len cs3 with
        | some (ds, cs4) => some (⟨no, t, ds⟩, cs4)
        | none => none
      | none => none
    | none => none
  | none => none

/-- Parse a fixed count of shares. -/
def parseShares : Nat → List Char → Option (List Share × List Char)
  | 0, cs => some ([], cs)
  | k + 1, cs =>
    match parseShare cs with
    | some (s, cs') =>
      match parseShares k cs' with
      | some (ss, cs'') => some (s :: ss, cs'')
      | none => none
    | none => none

/-- Modelled from the spec: `serde_json::to_string` on `Vec<Share>` (the shard
collection wire format, opaque per the spec): share count followed by the
shares. -/
def sharesToString (xs : List Share) : String :=
  String.mk (encNatLE xs.length ++ (xs.map encShare).flatten)

/-- Modelled from the spec: `serde_json::from_str::<Vec<Share>>`, the inverse
of `sharesToString`; fails unless the whole input is a well-formed shard
collection. -/
def sharesFromString? (s : String) : Option (List Share) :=
  match parseNatLE s.data with
  | some (k, cs) =>
    match parseShares k cs with
    | some (ss, []) => some ss
    | some (_, _ :: _) => none
    | none => none
  | none => none

/-- Modelled from the spec: the `Display` rendering of a single `Share`
(`shard.to_string()` in `get_shard_of_verkey`). -/
def shareToString (s : Share) : String :=
  String.mk (encShare s)

theorem parseNats_enc (xs : List Nat) (rest : List Char) :
    parseNats xs.length ((xs.map encNatLE).flatten ++ rest) = some (xs, rest) := by
  induction xs with
  | nil => rfl
  | cons x xs ih =>
    simp only [List.length_cons, List.map_cons, List.flatten_cons, List.append_assoc,
      parseNats, parseNatLE_encNatLE, ih]

theorem parseShare_encShare (s : Share) (rest : List Char) :
    parseShare (encShare s ++ rest) = some (s, rest) := by
  obtain ⟨no, t, ds⟩ := s
  simp only [encShare, List.append_assoc, parseShare, parseNatLE_encNatLE,
    parseNats_enc]

theorem parseShares_enc (xs : List Share) (rest : List Char) :
    parseShares xs.length ((xs.map encShare).flatten ++ rest) = some (xs, rest) := by
  induction xs with
  | nil => rfl
  | cons x xs ih =>
    simp only [List.length_cons, List.map_cons, List.flatten_cons, List.append_assoc,
      parseShares, parseShare_encShare, ih]

theorem sharesFromString?_sharesToString (xs : List Share) :
    sharesFromString? (sharesToString xs) = some xs := by
  have hdata : (sharesToString xs).data = encNatLE xs.length ++ (xs.map encShare).flatten := rfl
  rw [sharesFromString?, hdata]
  have h1 : parseNatLE (encNatLE xs.length ++ (xs.map encShare).flatten) =
      some (xs.length, (xs.map encShare).flatten) := by
    have := parseNatLE_encNatLE xs.length ((xs.map encShare).flatten)
    simpa using this
  rw [h1]
  have h2 : parseShares xs.length ((xs.map encShare).flatten ++ []) = some (xs, []) :=
    parseShares_enc xs []
  rw [List.append_nil] at h2
  change (match parseShares xs.length ((xs.map encShare).flatten) with
    | some (ss, []) => some ss
    | some (_, _ :: _) => none
    | none => none) = some xs
  rw [h2]

/-! ### UTF-8

Model of Rust's `str::as_bytes` (`String::into_bytes`) and `str::from_utf8`
at the level of byte lists. Encoding and decoding follow the UTF-8 rules:
multi-byte sequences with continuation bytes in `0x80..0xBF`, rejection of
overlong forms, surrogates and values above `0x10FFFF`. -/

/-- UTF-8 bytes of one Unicode scalar value. -/
def utf8EncodeChar (c : Char) : List Nat :=
  let n := c.toNat
  if n < 0x80 then [n]
  else if n < 0x800 then [0xC0 + n / 64, 0x80 + n % 64]
  else if n < 0x10000 then [0xE0 + n / 4096, 0x80 + (n / 64) % 64, 0x80 + n % 64]
  else [0xF0 + n / 262144, 0x80 + (n / 4096) % 64, 0x80 + (n / 64) % 64, 0x80 + n % 64]

/-- Model of `updated_json.as_bytes()`: the UTF-8 byte sequence of a string. -/
def utf8Encode (s : String) : List Nat :=
  (s.data.map utf8EncodeChar).flatten

/-- Model of `str::from_utf8` at the character-list level: decode a byte list,
returning `none` exactly on ill-formed UTF-8. The fuel argument bounds the
number of decoded characters; each step consumes one unit of fuel and at
least one byte, so fuel equal to the byte count always suffices. -/
def utf8DecodeCharsAux : Nat → List Nat → Option (List Char)
  | _, [] => some []
  | 0, _ :: _ => none
  | fuel + 1, b :: bs =>
    if b < 0x80 then
      (utf8DecodeCharsAux fuel bs).map (fun cs => Char.ofNat b :: cs)
    else if 0xC2 ≤ b ∧ b < 0xE0 then
      if 1 ≤ bs.length then
        let b1 := bs.getD 0 0
        if 0x80 ≤ b1 ∧ b1 < 0xC0 then
          (utf8DecodeCharsAux fuel (bs.drop 1)).map
            (fun cs => Char.ofNat ((b - 0xC0) * 64 + (b1 - 0x80)) :: cs)
        else none
      else none
    else if 0xE0 ≤ b ∧ b < 0xF0 then
      if 2 ≤ bs.length then
        let b1 := bs.getD 0 0
        let b2 := bs.getD 1 0
        if (0x80 ≤ b1 ∧ b1 < 0xC0) ∧ (0x80 ≤ b2 ∧ b2 < 0xC0) then
          let n := (b - 0xE0) * 4096 + (b1 - 0x80) * 64 + (b2 - 0x80)
          if 0x800 ≤ n ∧ (n < 0xD800 ∨ 0xDFFF < n) then
            (utf8DecodeCharsAux fuel (bs.drop 2)).map (fun cs => Char.ofNat n :: cs)
          else none
        else none
      else none
    else if 0xF0 ≤ b ∧ b < 0xF5 then
      if 3 ≤ bs.length then
        let b1 := bs.getD 0 0
        let b2 := bs.getD 1 0
        let b3 := bs.getD 2 0
        if (0x80 ≤ b1 ∧ b1 < 0xC0) ∧ (0x80 ≤ b2 ∧ b2 < 0xC0) ∧ (0x80 ≤ b3 ∧ b3 < 0xC0) then
          let n := (b - 0xF0) * 262144 + (b1 - 0x80) * 4096 + (b2 - 0x80) * 64 + (b3 - 0x80)
          if 0x10000 ≤ n ∧ n < 0x110000 then
            (utf8DecodeCharsAux fuel (bs.drop 3)).map (fun cs => Char.ofNat n :: cs)
          else none
        else none
      else none
    else none

/-- Decode a UTF-8 byte list to a character list. -/
def utf8DecodeChars (bs : List Nat) : Option (List Char) :=
  utf8DecodeCharsAux bs.length bs

/-- Model of `str::from_utf8(..)?.to_string()`: decode bytes to a string. -/
def utf8Decode? (bs : List Nat) : Option String :=
  (utf8DecodeChars bs).map String.mk

theorem utf8DecodeCharsAux_one (b : Nat) (h1 : b < 0x80) (fuel : Nat) (bs : List Nat) :
    utf8DecodeCharsAux (fuel + 1) (b :: bs) =
      (utf8DecodeCharsAux fuel bs).map (fun cs => Char.ofNat b :: cs) := by
  rw [utf8DecodeCharsAux.eq_def]
  dsimp only
  rw [if_pos h1]

theorem utf8DecodeCharsAux_two (n : Nat) (h1 : 0x80 ≤ n) (h2 : n < 0x800)
    (fuel : Nat) (bs : List Nat) :
    utf8DecodeCharsAux (fuel + 1) ((0xC0 + n / 64) :: (0x80 + n % 64) :: bs) =
      (utf8DecodeCharsAux fuel bs).map (fun cs => Char.ofNat n :: cs) := by
  rw [utf8DecodeCharsAux.eq_def]
  dsimp only
  rw [if_neg (by omega), if_pos (by omega)]
  simp only [List.length_cons, List.getD_cons_zero, List.drop_succ_cons, List.drop_zero]
  rw [if_pos (by omega), if_pos (by omega)]
  have harg : (0xC0 + n / 64 - 0xC0) * 64 + (0x80 + n % 64 - 0x80) = n := by omega
  rw [harg]

theorem utf8DecodeCharsAux_three (n : Nat) (h1 : 0x800 ≤ n) (h2 : n < 0x10000)
    (h3 : n < 0xD800 ∨ 0xDFFF < n) (fuel : Nat) (bs : List Nat) :
    utf8DecodeCharsAux (fuel + 1)
        ((0xE0 + n / 4096) :: (0x80 + n / 64 % 64) :: (0x80 + n % 64) :: bs) =
      (utf8DecodeCharsAux fuel bs).map (fun cs => Char.ofNat n :: cs) := by
  rw [utf8DecodeCharsAux.eq_def]
  dsimp only
  rw [if_neg (by omega), if_neg (by omega), if_pos (by omega)]
  simp only [List.length_cons, List.getD_cons_zero, List.getD_cons_succ,
    List.drop_succ_cons, List.drop_zero]
  rw [if_pos (by omega), if_pos (by omega)]
  have harg : (0xE0 + n / 4096 - 0xE0) * 4096 + (0x80 + n / 64 % 64 - 0x80) * 64 +
      (0x80 + n % 64 - 0x80) = n := by omega
  rw [harg, if_pos (by omega)]

theorem utf8DecodeCharsAux_four (n : Nat) (h1 : 0x10000 ≤ n) (h2 : n < 0x110000)
    (fuel : Nat) (bs : List Nat) :
    utf8DecodeCharsAux (fuel + 1)
        ((0xF0 + n / 262144) :: (0x80 + n / 4096 % 64) :: (0x80 + n / 64 % 64) ::
          (0x80 + n % 64) :: bs) =
      (utf8DecodeCharsAux fuel bs).map (fun cs => Char.ofNat n :: cs) := by
  rw [utf8DecodeCharsAux.eq_def]
  dsimp only
  rw [if_neg (by omega), if_neg (by omega), if_neg (by omega), if_pos (by omega)]
  simp only [List.length_cons, List.getD_cons_zero, List.getD_cons_succ,
    List.drop_succ_cons, List.drop_zero]
  rw [if_pos (by omega), if_pos (by omega)]
  have harg : (0xF0 + n / 262144 - 0xF0) * 262144 + (0x80 + n / 4096 % 64 - 0x80) * 4096 +
      (0x80 + n / 64 % 64 - 0x80) * 64 + (0x80 + n % 64 - 0x80) = n := by omega
  rw [harg, if_pos (by omega)]

theorem utf8DecodeCharsAux_encode (cs : List Char) (fuel : Nat) (hf : cs.length ≤ fuel) :
    utf8DecodeCharsAux fuel ((cs.map utf8EncodeChar).flatten) = some cs := by
  induction cs generalizing fuel with
  | nil =>
    rw [List.map_nil, List.flatten_nil]
    cases fuel <;> rfl
  | cons c cs ih =>
    obtain ⟨f, rfl⟩ : ∃ f, fuel = f + 1 := by
      cases fuel
      · simp at hf
      · exact ⟨_, rfl⟩
    have hfc : cs.length ≤ f := by simp at hf; omega
    have hv : c.toNat < 0xd800 ∨ (0xdfff < c.toNat ∧ c.toNat < 0x110000) := c.valid
    rw [List.map_cons, List.flatten_cons]
    rcases Nat.lt_or_ge c.toNat 0x80 with h1 | h1
    · have he : utf8EncodeChar c = [c.toNat] := by
        unfold utf8EncodeChar
        rw [if_pos h1]
      rw [he, List.singleton_append, utf8DecodeCharsAux_one c.toNat h1, ih f hfc]
      simp [Char.ofNat_toNat]
    · rcases Nat.lt_or_ge c.toNat 0x800 with h2 | h2
      · have he : utf8EncodeChar c = [0xC0 + c.toNat / 64, 0x80 + c.toNat % 64] := by
          unfold utf8EncodeChar
          rw [if_neg (by omega), if_pos h2]
        rw [he, List.cons_append, List.cons_append, List.nil_append,
          utf8DecodeCharsAux_two c.toNat h1 h2, ih f hfc]
        simp [Char.ofNat_toNat]
      · rcases Nat.lt_or_ge c.toNat 0x10000 with h3 | h3
        · have he : utf8EncodeChar c =
              [0xE0 + c.toNat / 4096, 0x80 + c.toNat / 64 % 64, 0x80 + c.toNat % 64] := by
            unfold utf8EncodeChar
            rw [if_neg (by omega), if_neg (by omega), if_pos h3]
          rw [he, List.cons_append, List.cons_append, List.cons_append, List.nil_append,
            utf8DecodeCharsAux_three c.toNat h2 h3 (by omega), ih f hfc]
          simp [Char.ofNat_toNat]
        · have h4 : c.toNat < 0x110000 := by omega
          have he : utf8EncodeChar c =
              [0xF0 + c.toNat / 262144, 0x80 + c.toNat / 4096 % 64,
               0x80 + c.toNat / 64 % 64, 0x80 + c.toNat % 64] := by
            unfold utf8EncodeChar
            rw [if_neg (by omega), if_neg (by omega), if_neg (by omega)]
          rw [he, List.cons_append, List.cons_append, List.cons_append, List.cons_append,
            List.nil_append, utf8DecodeCharsAux_four c.toNat h3 h4, ih f hfc]
          simp [Char.ofNat_toNat]

theorem utf8EncodeChar_length_pos (c : Char) : 1 ≤ (utf8EncodeChar c).length := by
  unfold utf8EncodeChar
  dsimp only
  split
  · simp
  · split
    · simp
    · split
      · simp
      · simp

theorem length_le_utf8_length (cs : List Char) :
    cs.length ≤ ((cs.map utf8EncodeChar).flatten).length := by
  induction cs with
  | nil => simp
  | cons c cs ih =>
    rw [List.map_cons, List.flatten_cons, List.length_cons, List.length_append]
    have := utf8EncodeChar_length_pos c
    omega

theorem utf8DecodeChars_encode (cs : List Char) :
    utf8DecodeChars ((cs.map utf8EncodeChar).flatten) = some cs :=
  utf8DecodeCharsAux_encode cs _ (length_le_utf8_length cs)

theorem utf8Decode?_utf8Encode (s : String) : utf8Decode? (utf8Encode s) = some s := by
  rw [utf8Decode?, utf8Encode, utf8DecodeChars_encode]
  rfl

/-! ### Error taxonomy

The error kinds of the spec's taxonomy (section 7) that the embedded code
paths can surface. `invalidThreshold` is listed in the spec's taxonomy; it is
included here so that statements can refer to it. -/

/-- Typed failure result surfaced to the caller (model of `IndyError`,
projected onto the spec's error taxonomy). -/
inductive IndyError where
  | malformedInput
  | invalidThreshold
  | keyNotFound
  | decodeError
  | splitFailure
  | notFound
  | indexOutOfRange
  | recoveryFailure
  | encodingError
  deriving DecidableEq

/-- Result of running a command handler: a value, a typed error, or a Rust
panic (an abort, distinct from every `Result::Err`). -/
inductive Outcome (α : Type) where
  | ok (a : α)
  | err (e : IndyError)
  | panicked
  deriving DecidableEq

/-! ### External primitives, modelled from the spec

`indy_crypto::sss::{shard_secret, get_shard_by_no, recover_secret}`, base58
and the ed25519 seed derivation are external collaborators; the spec
specifies them "only at their interface boundary". -/

/-- Modelled from the spec: `indy_crypto::sss::shard_secret(m, n, secret,
with_checksum)`. Rejects parameters out of the supported range (`SplitFailure
if the external split primitive rejects parameters`); otherwise produces `n`
shards with 1-based indices, each carrying data sufficient for combination
(abstracted as the secret itself plus the recorded threshold; the polynomial
arithmetic is out of scope). -/
def shard_secret (m n : Nat) (secret : List Nat) (_withChecksum : Bool) :
    Except IndyError (List Share) :=
  if 1 ≤ m ∧ m ≤ n then
    .ok ((List.range n).map (fun i => ⟨i + 1, m, secret⟩))
  else
    .error .splitFailure

/-- Number of distinct shard indices in a collection. -/
def distinctNos (shards : List Share) : Nat :=
  (shards.map Share.no).dedup.length

/-- Modelled from the spec: `indy_crypto::sss::recover_secret(shards,
with_checksum)`. Reconstructs the secret from at least `m` distinct shards of
one split; fails (`InsufficientShards`/`RecoveryFailure`) on fewer than `m`
distinct shards or on mismatched shard data. -/
def recover_secret (shards : List Share) (_withChecksum : Bool) :
    Except IndyError (List Nat) :=
  match shards with
  | [] => .error .recoveryFailure
  | a :: rest =>
    if a.threshold ≤ distinctNos (a :: rest) ∧
        rest.all (fun s => s.threshold == a.threshold && s.data == a.data) then
      .ok a.data
    else
      .error .recoveryFailure

/-- Modelled from the spec: `indy_crypto::sss::get_shard_by_no`. Selects the
shard whose own embedded 1-based index equals `no`; fails with
`IndexOutOfRange` when no shard carries that index. -/
def get_shard_by_no (shards : List Share) (no : Nat) : Except IndyError Share :=
  match shards.find? (fun s => s.no == no) with
  | some s => .ok s
  | none => .error .indexOutOfRange

/-- The base58 alphabet. -/
def base58Alphabet : List Char :=
  "123456789ABCDEFGHJKLMNPQRSTUVWXYZabcdefghijkmnopqrstuvwxyz".data

/-- Modelled from the spec: `Base58::decode`. Base58 is out of scope and is
modelled character-wise: every character must belong to the base58 alphabet
(`DecodeError` otherwise); the decoded bytes are the characters' alphabet
positions. -/
def base58Decode (s : String) : Except IndyError (List Nat) :=
  match s.data.mapM (fun c => base58Alphabet.indexOf? c) with
  | some bs => .ok bs
  | none => .error .decodeError

/-- Modelled from the spec: `Base58::encode`, character-wise (total). -/
def base58Encode (bs : List Nat) : String :=
  String.mk (bs.map (fun b => base58Alphabet.getD (b % 58) '1'))

/-- Modelled from the spec: `CryptoBox::ed25519_sk_to_seed`, the deterministic
seed derivation — "fixed-size truncation/derivation defined by the signing
scheme, e.g. first half of a 64-byte expanded key". -/
def ed25519_sk_to_seed (sk : List Nat) : Except IndyError (List Nat) :=
  if sk.length = 64 then .ok (sk.take 32) else .error .decodeError

/-! ### Shared collaborator state and observable events -/

/-- The two shared external resources: the key service (owner identity ↦
base58-encoded signing key, the model of `CryptoCommandExecutor::
__wallet_get_key`) and the wallet key-value store (model of
`WalletService::{get, set}`), both scoped to one wallet handle. -/
structure St where
  keys : List (String × String)
  entries : List (String × String)

/-- Association-list lookup for string maps. -/
def assocGet? (l : List (String × String)) (k : String) : Option String :=
  match l with
  | [] => none
  | (k', v) :: rest => if k' == k then some v else assocGet? rest k

/-- Association-list overwrite-or-add for string maps. -/
def assocSet (l : List (String × String)) (k v : String) : List (String × String) :=
  match l with
  | [] => [(k, v)]
  | (k', v') :: rest => if k' == k then (k, v) :: rest else (k', v') :: assocSet rest k v

/-- Modelled from the spec: the key service read
(`get_signing_key(scope, owner_identity)`). -/
def lookupKey (st : St) (verkey : String) : Option String :=
  assocGet? st.keys verkey

/-- Wallet read (`WalletService::get`). -/
def walletGet? (st : St) (key : String) : Option String :=
  assocGet? st.entries key

/-- Wallet write (`WalletService::set`), an unconditional overwrite. -/
def walletSet (st : St) (key value : String) : St :=
  { st with entries := assocSet st.entries key value }

/-- Observable interactions of one command run with the shared resources and
the external split primitive, in order of occurrence. -/
inductive Event where
  | keyLookup (verkey : String)
  | splitCall (m n : Nat)
  | storageRead (key : String)
  | storageWrite (key : String)
  deriving DecidableEq

/-! ### A JSON text parser

Model of `serde_json::from_str::<Value>` on the integral fragment (no floats,
no string escapes): enough structure for the claims, which are conditional on
the parse outcome, and for concrete witness inputs. -/

/-- Skip blanks. -/
def skipWs : List Char → List Char
  | [] => []
  | c :: cs =>
    if c = ' ' ∨ c = '\n' ∨ c = '\t' ∨ c = '\r' then skipWs cs else c :: cs

/-- Parse a string literal body after the opening quote, up to the closing
quote (escape-free fragment). -/
def parseStringLit : List Char → Option (String × List Char)
  | [] => none
  | c :: cs =>
    if c = '"' then some ("", cs)
    else
      match parseStringLit cs with
      | some (s, rest) => some (String.mk (c :: s.data), rest)
      | none => none

/-- Big-endian value of a digit run. -/
def fromDigitsBE (ds : List Nat) : Nat :=
  ds.foldl (fun a d => a * 10 + d) 0

/-- Parse a JSON integer literal. -/
def parseIntLit (cs : List Char) : Option (Int × List Char) :=
  match cs with
  | '-' :: rest =>
    let p := readDigits rest
    if p.1.isEmpty then none else some (-(Int.ofNat (fromDigitsBE p.1)), p.2)
  | _ =>
    let p := readDigits cs
    if p.1.isEmpty then none else some (Int.ofNat (fromDigitsBE p.1), p.2)

mutual

/-- Parse one JSON value (fuel-indexed recursive descent). -/
def parseValue : Nat → List Char → Option (Json × List Char)
  | 0, _ => none
  | fuel + 1, cs =>
    match skipWs cs with
    | [] => none
    | c :: rest =>
      if c = 'n' then
        match rest with
        | 'u' :: 'l' :: 'l' :: r => some (Json.null, r)
        | _ => none
      else if c = 't' then
        match rest with
        | 'r' :: 'u' :: 'e' :: r => some (Json.bool true, r)
        | _ => none
      else if c = 'f' then
        match rest with
        | 'a' :: 'l' :: 's' :: 'e' :: r => some (Json.bool false, r)
        | _ => none
      else if c = '"' then
        match parseStringLit rest with
        | some (s, r) => some (Json.str s, r)
        | none => none
      else if c = '[' then
        match skipWs rest with
        | ']' :: r => some (Json.arr [], r)
        | r => match parseElems fuel r with
          | some (js, r') => some (Json.arr js, r')
          | none => none
      else if c = '\x7b' then
        match skipWs rest with
        | '\x7d' :: r => some (Json.obj [], r)
        | r => match parseFields fuel r with
          | some (fs, r') => some (Json.obj fs, r')
          | none => none
      else
        match parseIntLit (c :: rest) with
        | some (i, r) => some (Json.num i, r)
        | none => none

/-- Parse the elements of a non-empty JSON array, including the closing
bracket. -/
def parseElems : Nat → List Char → Option (List Json × List Char)
  | 0, _ => none
  | fuel + 1, cs =>
    match parseValue fuel cs with
    | some (j, cs1) =>
      match skipWs cs1 with
      | ',' :: cs2 =>
        match parseElems fuel cs2 with
        | some (js, cs3) => some (j :: js, cs3)
        | none => none
      | ']' :: cs2 => some ([j], cs2)
      | _ => none
    | none => none

/-- Parse the fields of a non-empty JSON object, including the closing
brace. -/
def parseFields : Nat → List Char → Option (List (String × Json) × List Char)
  | 0, _ => none
  | fuel + 1, cs =>
    match skipWs cs with
    | '"' :: cs1 =>
      match parseStringLit cs1 with
      | some (k, cs2) =>
        match skipWs cs2 with
        | ':' :: cs3 =>
          match parseValue fuel cs3 with
          | some (v, cs4) =>
            match skipWs cs4 with
            | ',' :: cs5 =>
              match parseFields fuel cs5 with
              | some (fs, cs6) => some ((k, v) :: fs, cs6)
              | none => none
            | '\x7d' :: cs5 => some ([(k, v)], cs5)
            | _ => none
          | none => none
        | _ => none
      | none => none
    | _ => none

end

/-- Model of `serde_json::from_str::<Value>`: parse a whole string as one
JSON value, requiring the input to be fully consumed. -/
def jsonParse? (s : String) : Option Json :=
  match parseValue (s.data.length + 1) s.data with
  | some (j, rest) => if (skipWs rest).isEmpty then some j else none
  | none => none

/-! ### The embedded command handlers

Shallow embedding of `SSSCommandExecutor`'s methods
(`src/libindy/src/commands/sss.rs`, lines 87-146). State is passed
explicitly; each handler also returns the list of observable interactions
with the key service, the wallet and the split primitive, in order. -/

/-- Embeds `_verkey_to_wallet_key` (lines 144-146):
`format!("\x7b\x7d::\x7b\x7d", SSS_WALLET_KEY_PREFIX, verkey)` with
`SSS_WALLET_KEY_PREFIX = "sss"`. -/
def _verkey_to_wallet_key (verkey : String) : String :=
  "sss" ++ "::" ++ verkey

/-- Embeds lines 88-94 of `shard_msg_secret_and_store_shards`: obtain the
`msg` object map. `None` becomes `Map::new()`; for `Some(s)`,
`serde_json::from_str(s)?` propagates a parse failure as a typed error, and a
successful parse to a non-object value makes `v.as_object_mut().unwrap()`
panic (`Option::unwrap` on `None`). -/
def msgStep (msg : Option String) : Outcome JMap :=
  match msg with
  | none => .ok []
  | some s =>
    match jsonParse? s with
    | none => .err .malformedInput
    | some (Json.obj fields) => .ok fields
    | some _ => .panicked

/-- Embeds `update_msg_with_secret_key` (lines 129-138): fetch the owner's
key material from the key service, base58-decode the signing key, derive the
seed, then insert the `"verkey"` and `"seed"` fields into the cover map. -/
def update_msg_with_secret_key (st : St) (cover : JMap) (verkey : String) :
    Except IndyError JMap :=
  match lookupKey st verkey with
  | none => .error .keyNotFound
  | some signkey =>
    match base58Decode signkey with
    | .error e => .error e
    | .ok sk =>
      match ed25519_sk_to_seed sk with
      | .error e => .error e
      | .ok seed =>
        .ok (JMap.insert (JMap.insert cover "verkey" (Json.str verkey))
              "seed" (Json.str (base58Encode seed)))

/-- Embeds `shard_msg_secret_and_store_shards` (lines 87-106): parse `msg`
(or default it to the empty object), build the cover map with the `"msg"`
field, add `"verkey"` and `"seed"` via `update_msg_with_secret_key`, render
the cover to JSON, split its UTF-8 bytes with checksum mode disabled,
serialize the shard array, and store it under the owner's wallet key,
returning the owner identity. -/
def shard_msg_secret_and_store_shards (st : St) (m n : Nat)
    (msg : Option String) (verkey : String) :
    Outcome String × St × List Event :=
  match msgStep msg with
  | .panicked => (.panicked, st, [])
  | .err e => (.err e, st, [])
  | .ok msgMap =>
    let cover0 := JMap.insert [] "msg" (Json.obj msgMap)
    match update_msg_with_secret_key st cover0 verkey with
    | .error e => (.err e, st, [.keyLookup verkey])
    | .ok cover =>
      let updated_json := Json.render (Json.obj cover)
      match shard_secret m n (utf8Encode updated_json) false with
      | .error e => (.err e, st, [.keyLookup verkey, .splitCall m n])
      | .ok shares =>
        let shares_json := sharesToString shares
        let wallet_key := _verkey_to_wallet_key verkey
        (.ok verkey, walletSet st wallet_key shares_json,
          [.keyLookup verkey, .splitCall m n, .storageWrite wallet_key])

/-- Embeds `get_shards_of_verkey` (lines 109-112): raw passthrough of the
wallet value stored under the owner's wallet key. -/
def get_shards_of_verkey (st : St) (verkey : String) :
    Except IndyError String × List Event :=
  let wallet_key := _verkey_to_wallet_key verkey
  match walletGet? st wallet_key with
  | none => (.error .notFound, [.storageRead wallet_key])
  | some v => (.ok v, [.storageRead wallet_key])

/-- Embeds `get_shard_of_verkey` (lines 115-121): fetch the stored shard
collection, parse it, select the shard whose embedded index equals
`shard_no`, and return that shard's string rendering. -/
def get_shard_of_verkey (st : St) (verkey : String) (shard_no : Nat) :
    Except IndyError String :=
  let wallet_key := _verkey_to_wallet_key verkey
  match walletGet? st wallet_key with
  | none => .error .notFound
  | some shards_json =>
    match sharesFromString? shards_json with
    | none => .error .malformedInput
    | some shards =>
      match get_shard_by_no shards shard_no with
      | .error e => .error e
      | .ok shard => .ok (shareToString shard)

/-- Embeds `recover_secret_from_shards` (lines 123-127): parse the supplied
shard array, combine with checksum mode disabled, and decode the recovered
bytes as UTF-8 text. -/
def recover_secret_from_shards (shards_json : String) : Except IndyError String :=
  match sharesFromString? shards_json with
  | none => .error .malformedInput
  | some shards =>
    match recover_secret shards false with
    | .error e => .error e
    | .ok recovered_secret =>
      match utf8Decode? recovered_secret with
      | none => .error .encodingError
      | some s => .ok s

/-! ### Supporting lemmas and concrete test data -/

/-- A base58-encoded 64-character signing key used as concrete key material. -/
def skV : String := String.mk (List.replicate 64 '1')

/-- The base58 rendering of the seed derived from `skV`. -/
def seedV : String := String.mk (List.replicate 32 '1')

/-- A state whose key service resolves owner `"V"` to `skV`; empty wallet. -/
def stV : St := ⟨[("V", skV)], []⟩

/-- A second state with the same key material for `"V"` but different other
contents. -/
def stV2 : St := ⟨[("W", "x"), ("V", skV)], [("a", "b")]⟩

/-- The cover map built for owner `"V"` from an empty message. -/
def coverV : JMap := [("msg", Json.obj []), ("verkey", Json.str "V"), ("seed", Json.str seedV)]

theorem assocGet?_assocSet (l : List (String × String)) (k v : String) :
    assocGet? (assocSet l k v) k = some v := by
  induction l with
  | nil => simp [assocSet, assocGet?]
  | cons p rest ih =>
    obtain ⟨k', v'⟩ := p
    by_cases h : k' = k
    · simp [assocSet, assocGet?, h]
    · have hbe : (k' == k) = false := by simpa using h
      simp [assocSet, assocGet?, hbe, ih]

theorem update_msg_ok {st : St} {cover0 : JMap} {verkey : String} {cover : JMap}
    (h : update_msg_with_secret_key st cover0 verkey = .ok cover) :
    ∃ signkey sk seed, lookupKey st verkey = some signkey ∧
      base58Decode signkey = .ok sk ∧ ed25519_sk_to_seed sk = .ok seed ∧
      cover = JMap.insert (JMap.insert cover0 "verkey" (Json.str verkey)) "seed"
        (Json.str (base58Encode seed)) := by
  unfold update_msg_with_secret_key at h
  rcases hk : lookupKey st verkey with _ | signkey
  · simp only [hk] at h
    exact (Except.noConfusion h)
  · simp only [hk] at h
    rcases hb : base58Decode signkey with e | sk
    · simp only [hb] at h
      exact (Except.noConfusion h)
    · simp only [hb] at h
      rcases hs : ed25519_sk_to_seed sk with e | seed
      · simp only [hs] at h
        exact (Except.noConfusion h)
      · simp only [hs, Except.ok.injEq] at h
        exact ⟨signkey, sk, seed, rfl, hb, hs, h.symm⟩

theorem cover_shape (mm : JMap) (v w : Json) :
    JMap.insert (JMap.insert (JMap.insert [] "msg" (Json.obj mm)) "verkey" v) "seed" w =
      [("msg", Json.obj mm), ("verkey", v), ("seed", w)] := rfl

theorem shard_secret_bad {m n : Nat} (hbad : ¬(1 ≤ m ∧ m ≤ n)) (secret : List Nat) (w : Bool) :
    shard_secret m n secret w = .error .splitFailure := by
  unfold shard_secret
  rw [if_neg hbad]

theorem shard_secret_good {m n : Nat} (h1 : 1 ≤ m) (h2 : m ≤ n) (secret : List Nat) (w : Bool) :
    shard_secret m n secret w = .ok ((List.range n).map (fun i => ⟨i + 1, m, secret⟩)) := by
  unfold shard_secret
  rw [if_pos ⟨h1, h2⟩]

/-! ### Claims -/

/-- Claim C8: the storage key used by all three wallet-facing operations is
exactly the string formed by the `"sss"` namespace, the `"::"` separator and
the owner identity, and this mapping is injective: distinct owners map to
distinct storage keys. -/
theorem claim_C8 :
    (∀ v, _verkey_to_wallet_key v = "sss::" ++ v) ∧
    (∀ a b, _verkey_to_wallet_key a = _verkey_to_wallet_key b → a = b) := by
  refine ⟨fun v => rfl, fun a b h => ?_⟩
  have hd : ("sss" ++ "::" ++ a).data = ("sss" ++ "::" ++ b).data :=
    congrArg String.data h
  simp only [String.data_append] at hd
  have hd2 := List.append_cancel_left hd
  obtain ⟨da⟩ := a
  obtain ⟨db⟩ := b
  exact congrArg String.mk hd2

/-- Witness for C8 at concrete owners. -/
theorem claim_C8_witness :
    _verkey_to_wallet_key "V" = "sss::" ++ "V" ∧ "V" = ("V" : String) :=
  ⟨claim_C8.1 "V", claim_C8.2 "V" "V" rfl⟩

/-- Claim C9: seed derivation is deterministic — two runs of
`update_msg_with_secret_key` for the same owner identity against states
holding the same stored key material produce identical results (hence
identical `"seed"` fields in the covering payload). -/
theorem claim_C9 (st1 st2 : St) (cover : JMap) (owner : String)
    (h : lookupKey st1 owner = lookupKey st2 owner) :
    update_msg_with_secret_key st1 cover owner =
      update_msg_with_secret_key st2 cover owner := by
  unfold update_msg_with_secret_key
  rw [h]

/-- Witness for C9: two states differing everywhere except in owner `"V"`'s
key material. -/
theorem claim_C9_witness :
    lookupKey stV "V" = lookupKey stV2 "V" ∧
    update_msg_with_secret_key stV (JMap.insert [] "msg" (Json.obj [])) "V" =
      update_msg_with_secret_key stV2 (JMap.insert [] "msg" (Json.obj [])) "V" :=
  ⟨by decide, claim_C9 stV stV2 (JMap.insert [] "msg" (Json.obj [])) "V" (by decide)⟩

/-- Claim C10: the caller-supplied `msg` string is parsed before any key
service or storage access: on a parse failure the run returns the parse
error with the state unchanged and an empty interaction trace (no key
lookup, no storage read or write), for every state — whether or not key
material exists for the owner. -/
theorem claim_C10 (st : St) (m n : Nat) (s : String) (verkey : String)
    (h : jsonParse? s = none) :
    shard_msg_secret_and_store_shards st m n (some s) verkey =
      (.err .malformedInput, st, []) := by
  unfold shard_msg_secret_and_store_shards msgStep
  dsimp only
  rw [h]

/-- Witness for C10 at a concrete non-JSON message, against a state that does
hold key material for the owner. -/
theorem claim_C10_witness :
    jsonParse? "not json" = none ∧
    shard_msg_secret_and_store_shards stV 2 3 (some "not json") "V" =
      (.err .malformedInput, stV, []) :=
  ⟨rfl, claim_C10 stV 2 3 "not json" "V" rfl⟩

/-- Claim C3 (code bug): a caller-supplied `msg` that parses to valid JSON
which is not an object does not produce a `MalformedInput` error result —
`v.as_object_mut().unwrap()` panics instead. At the failing input
`msg = "[1,2]"` the run panics with no error result, no state change and no
interaction; an invalid-JSON `msg` does yield the typed error. -/
theorem claim_C3 :
    shard_msg_secret_and_store_shards stV 1 1 (some "[1,2]") "V" =
      (.panicked, stV, []) ∧
    (Outcome.panicked : Outcome String) ≠ .err .malformedInput := by
  exact ⟨rfl, by simp⟩

/-- Claim C2, counterexample: with valid key material and `m = 0, n = 5`, the
run fails with `splitFailure` propagated from the external split primitive —
which is invoked, as the `splitCall` event shows — not with an
`InvalidThreshold` error raised by local validation before the primitive. -/
theorem claim_C2_cex :
    shard_msg_secret_and_store_shards stV 0 5 none "V" =
      (.err .splitFailure, stV, [.keyLookup "V", .splitCall 0 5]) ∧
    Event.splitCall 0 5 ∈ (shard_msg_secret_and_store_shards stV 0 5 none "V").2.2 ∧
    IndyError.splitFailure ≠ IndyError.invalidThreshold := by
  refine ⟨rfl, ?_, by simp⟩
  rw [(by rfl : (shard_msg_secret_and_store_shards stV 0 5 none "V").2.2 =
    [Event.keyLookup "V", Event.splitCall 0 5])]
  simp

/-- Claim C2 as amended: no local threshold validation exists; for thresholds
violating `1 ≤ m ≤ n` the run never succeeds and never writes storage
(state unchanged, no `storageWrite` event), and when message parsing and key
resolution succeed, the failure is the external split primitive's rejection
(`splitFailure`), raised after the primitive has been invoked. -/
theorem claim_C2 (st : St) (m n : Nat) (msg : Option String) (verkey : String)
    (hbad : ¬(1 ≤ m ∧ m ≤ n)) :
    (∀ r, (shard_msg_secret_and_store_shards st m n msg verkey).1 ≠ .ok r) ∧
    (shard_msg_secret_and_store_shards st m n msg verkey).2.1 = st ∧
    (∀ k, Event.storageWrite k ∉ (shard_msg_secret_and_store_shards st m n msg verkey).2.2) ∧
    (∀ mm cover, msgStep msg = .ok mm →
      update_msg_with_secret_key st (JMap.insert [] "msg" (Json.obj mm)) verkey = .ok cover →
      shard_msg_secret_and_store_shards st m n msg verkey =
        (.err .splitFailure, st, [.keyLookup verkey, .splitCall m n])) := by
  cases hmsg : msgStep msg with
  | panicked => simp [shard_msg_secret_and_store_shards, hmsg]
  | err e => simp [shard_msg_secret_and_store_shards, hmsg]
  | ok mm =>
    cases hupd : update_msg_with_secret_key st (JMap.insert [] "msg" (Json.obj mm)) verkey with
    | error e =>
      simp [shard_msg_secret_and_store_shards, hmsg, hupd]
      intro mm1 cover hmm
      subst hmm
      simp [hupd]
    | ok cover =>
      simp [shard_msg_secret_and_store_shards, hmsg, hupd, shard_secret_bad hbad]

/-- Witness for C2 (amended) at `m = 0, n = 5` with resolvable key
material. -/
theorem claim_C2_witness :
    ¬(1 ≤ 0 ∧ 0 ≤ 5) ∧
    ((∀ r, (shard_msg_secret_and_store_shards stV 0 5 none "V").1 ≠ .ok r) ∧
      (shard_msg_secret_and_store_shards stV 0 5 none "V").2.1 = stV ∧
      (∀ k, Event.storageWrite k ∉ (shard_msg_secret_and_store_shards stV 0 5 none "V").2.2) ∧
      (∀ mm cover, msgStep none = .ok mm →
        update_msg_with_secret_key stV (JMap.insert [] "msg" (Json.obj mm)) "V" = .ok cover →
        shard_msg_secret_and_store_shards stV 0 5 none "V" =
          (.err .splitFailure, stV, [.keyLookup "V", .splitCall 0 5]))) :=
  ⟨by decide, claim_C2 stV 0 5 none "V" (by decide)⟩

/-- Claim C5: the single wallet write happens only after message parsing, key
resolution and the split have all succeeded — on success the trace is exactly
key lookup, split call, then one storage write; on every failure path the
state is unchanged and no `storageWrite` event occurs. -/
theorem claim_C5 (st : St) (m n : Nat) (msg : Option String) (verkey : String) :
    (∀ r, (shard_msg_secret_and_store_shards st m n msg verkey).1 = .ok r →
      (shard_msg_secret_and_store_shards st m n msg verkey).2.2 =
        [.keyLookup verkey, .splitCall m n,
         .storageWrite (_verkey_to_wallet_key verkey)]) ∧
    ((∀ r, (shard_msg_secret_and_store_shards st m n msg verkey).1 ≠ .ok r) →
      (shard_msg_secret_and_store_shards st m n msg verkey).2.1 = st ∧
      ∀ k, Event.storageWrite k ∉ (shard_msg_secret_and_store_shards st m n msg verkey).2.2) := by
  cases hmsg : msgStep msg with
  | panicked => simp [shard_msg_secret_and_store_shards, hmsg]
  | err e => simp [shard_msg_secret_and_store_shards, hmsg]
  | ok mm =>
    cases hupd : update_msg_with_secret_key st (JMap.insert [] "msg" (Json.obj mm)) verkey with
    | error e => simp [shard_msg_secret_and_store_shards, hmsg, hupd]
    | ok cover =>
      cases hsp : shard_secret m n (utf8Encode (Json.render (Json.obj cover))) false with
      | error e => simp [shard_msg_secret_and_store_shards, hmsg, hupd, hsp]
      | ok shares =>
        simp only [shard_msg_secret_and_store_shards, hmsg, hupd, hsp]
        exact ⟨fun r hr => trivial, fun habs => absurd rfl (habs verkey)⟩

/-- Witness for C5: a concrete successful run writes exactly once, after the
split. -/
theorem claim_C5_witness :
    (shard_msg_secret_and_store_shards stV 1 1 none "V").1 = .ok "V" ∧
    (shard_msg_secret_and_store_shards stV 1 1 none "V").2.2 =
      [.keyLookup "V", .splitCall 1 1, .storageWrite (_verkey_to_wallet_key "V")] :=
  ⟨rfl, (claim_C5 stV 1 1 none "V").1 "V" rfl⟩

/-- Claim C4: the covering payload that gets split has exactly the three
top-level fields `"msg"`, `"verkey"` and `"seed"`, in this order: `"msg"` is
the caller's object (empty when `msg` was absent), while `"verkey"` and
`"seed"` are injected from the key service (the owner's verification key and
the base58-encoded derived seed), never taken from caller input; on success
the run splits exactly the rendered cover and stores the resulting shard
collection. -/
theorem claim_C4 (st : St) (m n : Nat) (msg : Option String) (verkey : String)
    (mm cover : JMap)
    (hmsg : msgStep msg = .ok mm)
    (hupd : update_msg_with_secret_key st (JMap.insert [] "msg" (Json.obj mm)) verkey = .ok cover) :
    (∃ signkey sk seed, lookupKey st verkey = some signkey ∧
      base58Decode signkey = .ok sk ∧ ed25519_sk_to_seed sk = .ok seed ∧
      cover = [("msg", Json.obj mm), ("verkey", Json.str verkey),
               ("seed", Json.str (base58Encode seed))]) ∧
    (msg = none → mm = []) ∧
    (∀ r, (shard_msg_secret_and_store_shards st m n msg verkey).1 = .ok r →
      ∃ shares, shard_secret m n (utf8Encode (Json.render (Json.obj cover))) false = .ok shares ∧
        (shard_msg_secret_and_store_shards st m n msg verkey).2.1 =
          walletSet st (_verkey_to_wallet_key verkey) (sharesToString shares)) := by
  obtain ⟨signkey, sk, seed, hk, hb, hs, hcov⟩ := update_msg_ok hupd
  refine ⟨⟨signkey, sk, seed, hk, hb, hs, by rw [hcov, cover_shape]⟩, ?_, ?_⟩
  · intro hnone
    subst hnone
    simp only [msgStep, Outcome.ok.injEq] at hmsg
    exact hmsg.symm
  · cases hsp : shard_secret m n (utf8Encode (Json.render (Json.obj cover))) false with
    | error e =>
      simp [shard_msg_secret_and_store_shards, hmsg, hupd, hsp]
    | ok shares =>
      simp only [shard_msg_secret_and_store_shards, hmsg, hupd, hsp]
      exact fun r _ => ⟨shares, rfl, rfl⟩

/-- Witness for C4 at a concrete owner and message. -/
theorem claim_C4_witness :
    (∃ signkey sk seed, lookupKey stV "V" = some signkey ∧
      base58Decode signkey = .ok sk ∧ ed25519_sk_to_seed sk = .ok seed ∧
      coverV = [("msg", Json.obj []), ("verkey", Json.str "V"),
                ("seed", Json.str (base58Encode seed))]) ∧
    (some "\x7b\x7d" = none → ([] : JMap) = []) ∧
    (∀ r, (shard_msg_secret_and_store_shards stV 1 1 (some "\x7b\x7d") "V").1 = .ok r →
      ∃ shares, shard_secret 1 1 (utf8Encode (Json.render (Json.obj coverV))) false = .ok shares ∧
        (shard_msg_secret_and_store_shards stV 1 1 (some "\x7b\x7d") "V").2.1 =
          walletSet stV (_verkey_to_wallet_key "V") (sharesToString shares)) :=
  claim_C4 stV 1 1 (some "\x7b\x7d") "V" [] coverV rfl rfl

/-- Claim C7: when the combine primitive succeeds on the parsed shard array,
`recover` returns exactly the recovered bytes decoded as UTF-8 text (not
re-parsed into fields); when the recovered bytes are not valid UTF-8 it fails
with `encodingError`. -/
theorem claim_C7 (s : String) (shards : List Share) (bs : List Nat)
    (hparse : sharesFromString? s = some shards)
    (hcomb : recover_secret shards false = .ok bs) :
    (∀ t, utf8Decode? bs = some t → recover_secret_from_shards s = .ok t) ∧
    (utf8Decode? bs = none → recover_secret_from_shards s = .error .encodingError) := by
  constructor
  · intro t ht
    simp [recover_secret_from_shards, hparse, hcomb, ht]
  · intro ht
    simp [recover_secret_from_shards, hparse, hcomb, ht]

/-- Witness for C7: a shard whose payload byte `0xFF` is not valid UTF-8
makes `recover` fail with `encodingError`. -/
theorem claim_C7_witness :
    sharesFromString? (sharesToString [⟨1, 1, [255]⟩]) = some [⟨1, 1, [255]⟩] ∧
    recover_secret [⟨1, 1, [255]⟩] false = .ok [255] ∧
    utf8Decode? [255] = none ∧
    recover_secret_from_shards (sharesToString [⟨1, 1, [255]⟩]) = .error .encodingError :=
  ⟨rfl, rfl, rfl, (claim_C7 (sharesToString [⟨1, 1, [255]⟩]) [⟨1, 1, [255]⟩] [255] rfl rfl).2 rfl⟩

/-! ### Properties of the modelled split primitive's output -/

theorem mem_shares {n m : Nat} {secret : List Nat} {x : Share}
    (hx : x ∈ (List.range n).map (fun i => (⟨i + 1, m, secret⟩ : Share))) :
    x.threshold = m ∧ x.data = secret ∧ 1 ≤ x.no ∧ x.no ≤ n := by
  simp only [List.mem_map, List.mem_range] at hx
  obtain ⟨i, hi, rfl⟩ := hx
  exact ⟨rfl, rfl, by dsimp only; omega, by dsimp only; omega⟩

theorem shares_no_nodup (n m : Nat) (secret : List Nat) :
    (((List.range n).map (fun i => (⟨i + 1, m, secret⟩ : Share))).map Share.no).Nodup := by
  rw [List.map_map]
  exact List.Nodup.map (fun a b h => by simpa using h) (List.nodup_range n)

theorem recover_on_subset {m n : Nat} {secret : List Nat} (hm1 : 1 ≤ m)
    (sub : List Share)
    (hsub : sub.Sublist ((List.range n).map (fun i => (⟨i + 1, m, secret⟩ : Share))))
    (hlen : sub.length = m) :
    recover_secret sub false = .ok secret := by
  cases sub with
  | nil => simp at hlen; omega
  | cons a rest =>
    have hmemall : ∀ x ∈ a :: rest, x.threshold = m ∧ x.data = secret := by
      intro x hx
      have h := mem_shares (hsub.subset hx)
      exact ⟨h.1, h.2.1⟩
    have ha := hmemall a (by simp)
    have hnodup : ((a :: rest).map Share.no).Nodup :=
      List.Nodup.sublist (hsub.map Share.no) (shares_no_nodup n m secret)
    have hdist : distinctNos (a :: rest) = m := by
      unfold distinctNos
      rw [List.dedup_eq_self.mpr hnodup, List.length_map]
      exact hlen
    unfold recover_secret
    dsimp only
    rw [if_pos ?hcond]
    case hcond =>
      refine ⟨by rw [hdist, ha.1], ?_⟩
      rw [List.all_eq_true]
      intro s hsmem
      have hsfacts := hmemall s (by simp [hsmem])
      simp [hsfacts.1, hsfacts.2, ha.1, ha.2]
    rw [ha.2]

theorem get_shards_after_set (st : St) (verkey v : String) :
    (get_shards_of_verkey (walletSet st (_verkey_to_wallet_key verkey) v) verkey).1 = .ok v := by
  unfold get_shards_of_verkey walletGet? walletSet
  dsimp only
  rw [assocGet?_assocSet]

/-- Claim C1 (round-trip): with resolvable key material and a valid threshold
pair `1 ≤ m ≤ n`, `split_and_store` succeeds and echoes the owner identity;
`get_all_shards` then returns the stored collection of `n` shards, and
`recover` on any `m`-sized subset of it yields the covering payload — whose
`"verkey"` field is the owner identity and whose `"msg"` field is the
original message object (the empty object when `msg` was absent). -/
theorem claim_C1 (st : St) (m n : Nat) (msg : Option String) (verkey : String)
    (mm cover : JMap)
    (hmsg : msgStep msg = .ok mm)
    (hupd : update_msg_with_secret_key st (JMap.insert [] "msg" (Json.obj mm)) verkey = .ok cover)
    (hm1 : 1 ≤ m) (hmn : m ≤ n) :
    (shard_msg_secret_and_store_shards st m n msg verkey).1 = .ok verkey ∧
    (msg = none → mm = []) ∧
    JMap.lookup cover "verkey" = some (Json.str verkey) ∧
    JMap.lookup cover "msg" = some (Json.obj mm) ∧
    ∃ shares : List Share,
      (get_shards_of_verkey (shard_msg_secret_and_store_shards st m n msg verkey).2.1 verkey).1
        = .ok (sharesToString shares) ∧
      sharesFromString? (sharesToString shares) = some shares ∧
      shares.length = n ∧
      ∀ sub : List Share, sub.Sublist shares → sub.length = m →
        recover_secret_from_shards (sharesToString sub) = .ok (Json.render (Json.obj cover)) := by
  obtain ⟨signkey, sk, seed, hk, hb, hs, hcov⟩ := update_msg_ok hupd
  have hcovlit : cover = [("msg", Json.obj mm), ("verkey", Json.str verkey),
      ("seed", Json.str (base58Encode seed))] := by rw [hcov, cover_shape]
  have hrun : shard_msg_secret_and_store_shards st m n msg verkey =
      (.ok verkey,
       walletSet st (_verkey_to_wallet_key verkey)
         (sharesToString ((List.range n).map
           (fun i => ⟨i + 1, m, utf8Encode (Json.render (Json.obj cover))⟩))),
       [.keyLookup verkey, .splitCall m n,
        .storageWrite (_verkey_to_wallet_key verkey)]) := by
    simp only [shard_msg_secret_and_store_shards, hmsg, hupd,
      shard_secret_good hm1 hmn]
  refine ⟨by rw [hrun], ?_, by rw [hcovlit]; rfl, by rw [hcovlit]; rfl, ?_⟩
  · intro hnone
    subst hnone
    simp only [msgStep, Outcome.ok.injEq] at hmsg
    exact hmsg.symm
  · refine ⟨(List.range n).map
      (fun i => ⟨i + 1, m, utf8Encode (Json.render (Json.obj cover))⟩), ?_, ?_, ?_, ?_⟩
    · rw [hrun]
      exact get_shards_after_set st verkey _
    · exact sharesFromString?_sharesToString _
    · simp
    · intro sub hsubl hlen
      unfold recover_secret_from_shards
      rw [sharesFromString?_sharesToString]
      dsimp only
      rw [recover_on_subset hm1 sub hsubl hlen]
      dsimp only
      rw [utf8Decode?_utf8Encode]

/-- Witness for C1: a concrete full round-trip for owner `"V"` with
`m = n = 1` and no message. -/
theorem claim_C1_witness :
    msgStep none = .ok [] ∧
    ((shard_msg_secret_and_store_shards stV 1 1 none "V").1 = .ok "V" ∧
      (none = (none : Option String) → ([] : JMap) = []) ∧
      JMap.lookup coverV "verkey" = some (Json.str "V") ∧
      JMap.lookup coverV "msg" = some (Json.obj []) ∧
      ∃ shares : List Share,
        (get_shards_of_verkey (shard_msg_secret_and_store_shards stV 1 1 none "V").2.1 "V").1
          = .ok (sharesToString shares) ∧
        sharesFromString? (sharesToString shares) = some shares ∧
        shares.length = 1 ∧
        ∀ sub : List Share, sub.Sublist shares → sub.length = 1 →
          recover_secret_from_shards (sharesToString sub) = .ok (Json.render (Json.obj coverV))) :=
  ⟨rfl, claim_C1 stV 1 1 none "V" [] coverV rfl rfl (by decide) (by decide)⟩

theorem find?_shares_eq (n m : Nat) (secret : List Nat) (i : Nat) (h1 : 1 ≤ i) (h2 : i ≤ n) :
    ((List.range n).map (fun j => (⟨j + 1, m, secret⟩ : Share))).find?
      (fun s => s.no == i) = some ⟨i, m, secret⟩ := by
  induction n with
  | zero => omega
  | succ k ih =>
    rw [List.range_succ, List.map_append, List.find?_append]
    by_cases hik : i ≤ k
    · rw [ih hik]
      rfl
    · have hnone : ((List.range k).map (fun j => (⟨j + 1, m, secret⟩ : Share))).find?
          (fun s => s.no == i) = none := by
        rw [List.find?_eq_none]
        intro x hx
        have hb := mem_shares hx
        simp only [beq_iff_eq]
        omega
      have hi : i = k + 1 := by omega
      rw [hnone, hi]
      simp [List.find?]

theorem find?_shares_none (n m : Nat) (secret : List Nat) :
    ((List.range n).map (fun j => (⟨j + 1, m, secret⟩ : Share))).find?
      (fun s => s.no == n + 1) = none := by
  rw [List.find?_eq_none]
  intro x hx
  have hb := mem_shares hx
  simp only [beq_iff_eq]
  omega

/-- Claim C6: after a successful split into `n` shards, `get_shard` selects
by the shard's own embedded 1-based index: every `i` in `1..=n` succeeds and
returns the rendering of a shard whose embedded index is `i`, and index
`n + 1` fails with `indexOutOfRange`. -/
theorem claim_C6 (st : St) (m n : Nat) (msg : Option String) (verkey : String)
    (mm cover : JMap)
    (hmsg : msgStep msg = .ok mm)
    (hupd : update_msg_with_secret_key st (JMap.insert [] "msg" (Json.obj mm)) verkey = .ok cover)
    (hm1 : 1 ≤ m) (hmn : m ≤ n) :
    (∀ i, 1 ≤ i → i ≤ n → ∃ sh : Share, sh.no = i ∧
      get_shard_of_verkey (shard_msg_secret_and_store_shards st m n msg verkey).2.1 verkey i =
        .ok (shareToString sh)) ∧
    get_shard_of_verkey (shard_msg_secret_and_store_shards st m n msg verkey).2.1 verkey (n + 1) =
      .error .indexOutOfRange := by
  have hrun : (shard_msg_secret_and_store_shards st m n msg verkey).2.1 =
      walletSet st (_verkey_to_wallet_key verkey)
        (sharesToString ((List.range n).map
          (fun i => ⟨i + 1, m, utf8Encode (Json.render (Json.obj cover))⟩))) := by
    simp only [shard_msg_secret_and_store_shards, hmsg, hupd,
      shard_secret_good hm1 hmn]
  constructor
  · intro i hi1 hi2
    refine ⟨⟨i, m, utf8Encode (Json.render (Json.obj cover))⟩, rfl, ?_⟩
    rw [hrun]
    unfold get_shard_of_verkey walletGet? walletSet
    dsimp only
    rw [assocGet?_assocSet]
    dsimp only
    rw [sharesFromString?_sharesToString]
    dsimp only
    unfold get_shard_by_no
    rw [find?_shares_eq n m _ i hi1 hi2]
  · rw [hrun]
    unfold get_shard_of_verkey walletGet? walletSet
    dsimp only
    rw [assocGet?_assocSet]
    dsimp only
    rw [sharesFromString?_sharesToString]
    dsimp only
    unfold get_shard_by_no
    rw [find?_shares_none n m _]

/-- Witness for C6 after a concrete 1-of-1 split: index 1 succeeds with
embedded index 1, index 2 fails with `indexOutOfRange`. -/
theorem claim_C6_witness :
    (∃ sh : Share, sh.no = 1 ∧
      get_shard_of_verkey (shard_msg_secret_and_store_shards stV 1 1 none "V").2.1 "V" 1 =
        .ok (shareToString sh)) ∧
    get_shard_of_verkey (shard_msg_secret_and_store_shards stV 1 1 none "V").2.1 "V" 2 =
      .error .indexOutOfRange :=
  ⟨(claim_C6 stV 1 1 none "V" [] coverV rfl rfl (by decide) (by decide)).1 1
      (by decide) (by decide),
   (claim_C6 stV 1 1 none "V" [] coverV rfl rfl (by decide) (by decide)).2⟩

end Indy
